import Mathlib

/-!
Verification of the resampling core in `libImaging/Antialias.c` (Pillow).

The development shallowly embeds the C source.  IEEE single-precision
arithmetic in the source is modelled as exact rational arithmetic (`ℚ`);
C `float` values `floor`/`ceil` become `Int.floor`/`Int.ceil`, the
`(int)` cast of a nonnegative float becomes `Int.floor`, and the
general `(int)` cast (truncation toward zero) is `trunc` below.
Pixel buffers are row-major lists; reading `row[i]` is `List.getD i 0`,
matching the C array access on in-bounds indices (all claims are about
in-bounds accesses, guaranteed by the clamped windows).
-/

attribute [local semireducible] Rat.add Rat.mul Rat.inv Rat.sub Rat.ofScientific

namespace Antialias

set_option linter.dupNamespace false

/-- The `struct filter` of Antialias.c:22-25: an evaluator together with
its support radius. -/
structure filter where
  filter : ℚ → ℚ
  support : ℚ

/-- Antialias.c:45-50, `nearest_filter`: 1 on [-1/2, 1/2), else 0. -/
def nearest_filter (x : ℚ) : ℚ :=
  if -(1/2) ≤ x ∧ x < 1/2 then 1 else 0

/-- Antialias.c:52, the `NEAREST` descriptor, support 0.5. -/
def NEAREST : filter := ⟨nearest_filter, 1/2⟩

/-- Antialias.c:54-61, `bilinear_filter`: the tent function. -/
def bilinear_filter (x : ℚ) : ℚ :=
  let x := if x < 0 then -x else x
  if x < 1 then 1 - x else 0

/-- Antialias.c:63, the `BILINEAR` descriptor, support 1. -/
def BILINEAR : filter := ⟨bilinear_filter, 1⟩

/-- Antialias.c:65-77, `bicubic_filter`: cardinal cubic convolution with
parameter a = -1/2. -/
def bicubic_filter (x : ℚ) : ℚ :=
  let a : ℚ := -(1/2)
  let x := if x < 0 then -x else x
  if x < 1 then ((a + 2) * x - (a + 3)) * x * x + 1
  else if x < 2 then (((x - 5) * x + 8) * x - 4) * a
  else 0

/-- Antialias.c:79, the `BICUBIC` descriptor, support 2. -/
def BICUBIC : filter := ⟨bicubic_filter, 2⟩

/- The ANTIALIAS (Lanczos-3) descriptor of Antialias.c:27-43 evaluates
`sinc(x)*sinc(x/3)`, a transcendental function with no exact rational
embedding.  Every theorem quantifying over filters holds for an
arbitrary evaluator `ℚ → ℚ`, which subsumes any rational-arithmetic
model of the Lanczos kernel; the dispatch function below therefore takes
the Lanczos descriptor as an explicit parameter. -/

/-- Pixel storage of an `Imaging` struct, one constructor per pixel
layout distinguished by `ImagingStretchHorizaontal` (Antialias.c:195-251):
the 8-bit `image8` plane, the packed 4-lane UINT8 `image` plane,
INT32 and FLOAT32 planes, and a constructor covering every other
type (the `default:` case of the switch). -/
inductive PixelData where
  | image8 (rows : List (List ℕ))
  | packedUINT8 (bands : ℕ) (rows : List (List ℕ))
  | int32 (rows : List (List ℤ))
  | float32 (rows : List (List ℚ))
  | unsupportedType
deriving DecidableEq

/-- The fields of the `Imaging` struct consulted by Antialias.c. -/
structure Imaging where
  mode : String
  xsize : ℕ
  ysize : ℕ
  data : PixelData
deriving DecidableEq

/-- The three error channels used by Antialias.c
(`ImagingError_ModeError`, `ImagingError_ValueError`,
`ImagingError_MemoryError`). -/
inductive ImagingError where
  | modeError
  | valueError (msg : String)
  | memoryError
deriving DecidableEq

instance : DecidableEq (Except ImagingError Imaging) := fun a b =>
  match a, b with
  | .ok x, .ok y =>
    if h : x = y then .isTrue (by simp [h]) else .isFalse (by simp [h])
  | .error x, .error y =>
    if h : x = y then .isTrue (by simp [h]) else .isFalse (by simp [h])
  | .ok _, .error _ => .isFalse (by simp)
  | .error _, .ok _ => .isFalse (by simp)

/-- The filter selector of Antialias.c:104-121 (the
`IMAGING_TRANSFORM_*` constants of Imaging.h), with `unknown` standing
for every tag hitting the `default:` branch. -/
inductive TransformFilter where
  | nearest
  | antialias
  | bilinear
  | bicubic
  | unknown
deriving DecidableEq

/-- Antialias.c:124, `scale = (float) imIn->xsize / imOut->xsize`. -/
def scaleOf (n m : ℕ) : ℚ := (n : ℚ) / (m : ℚ)

/-- Antialias.c:124-131: `filterscale = scale`, raised to 1 when below 1. -/
def filterscaleOf (n m : ℕ) : ℚ :=
  if scaleOf n m < 1 then 1 else scaleOf n m

/-- Antialias.c:127-133, `support = filterp->support * filterscale`. -/
def supportOf (f : filter) (n m : ℕ) : ℚ := f.support * filterscaleOf n m

/-- Antialias.c:151/177, `center = (xx + 0.5) * scale`. -/
def centerOf (n m xx : ℕ) : ℚ := ((xx : ℚ) + 1/2) * scaleOf n m

/-- Antialias.c:154-156/180-182: `xmin = floor(center - support)` clamped
below at 0. -/
def xminOf (f : filter) (n m xx : ℕ) : ℤ :=
  max 0 ⌊centerOf n m xx - supportOf f n m⌋

/-- Antialias.c:157-159/183-185: `xmax = ceil(center + support)` clamped
above at `imIn->xsize`. -/
def xmaxOf (f : filter) (n m xx : ℕ) : ℤ :=
  min (n : ℤ) ⌈centerOf n m xx + supportOf f n m⌉

/-- Antialias.c:161/187: the weight stored at `k[x - xmin]`, namely
`filterp->filter((x - center + 0.5) * ss) * ss` with `ss = 1/filterscale`. -/
def weightOf (f : filter) (n m xx : ℕ) (x : ℤ) : ℚ :=
  f.filter (((x : ℚ) - centerOf n m xx + 1/2) * (1 / filterscaleOf n m)) *
    (1 / filterscaleOf n m)

/-- Antialias.c:160-164/186-190: the accumulated weight total `ww` over
the window `[xmin, xmax)`. -/
def wwOf (f : filter) (n m xx : ℕ) : ℚ :=
  ∑ x in Finset.Ico (xminOf f n m xx) (xmaxOf f n m xx), weightOf f n m xx x

/-- Antialias.c:165-168/191-194: the stored reciprocal normalizer, with
the defensive fallback to 1 on a zero weight sum. -/
def normOf (f : filter) (n m xx : ℕ) : ℚ :=
  if wwOf f n m xx = 0 then 1 else 1 / wwOf f n m xx

/-- C truncation toward zero of a rational, the conversion applied by a
C `(int)` cast or an assignment of a float to an integer lvalue. -/
def trunc (q : ℚ) : ℤ := if 0 ≤ q then ⌊q⌋ else ⌈q⌉

/-- Antialias.c:201-207/220-226: the 8-bit finalization applied to the
already biased value `ss = sum*ww + 0.5` — clamp to 0 below 0.5, clamp
to 255 at or above 255.0, otherwise the `(UINT8)` truncation. -/
def clamp8 (s : ℚ) : ℕ :=
  if s < 1/2 then 0 else if 255 ≤ s then 255 else (⌊s⌋).toNat

/-- Antialias.c:198-200: the weighted sum over an 8-bit grayscale row. -/
def weightedSum8 (f : filter) (n m : ℕ) (row : List ℕ) (xx : ℕ) : ℚ :=
  ∑ x in Finset.Ico (xminOf f n m xx) (xmaxOf f n m xx),
    (row.getD x.toNat 0 : ℚ) * weightOf f n m xx x

/-- Antialias.c:198-207: one destination pixel of the 8-bit grayscale path. -/
def pixel8 (f : filter) (n m : ℕ) (row : List ℕ) (xx : ℕ) : ℕ :=
  clamp8 (weightedSum8 f n m row xx * normOf f n m xx + 1/2)

/-- Antialias.c:217-219: the weighted sum over lane `b` of a packed
4-lane UINT8 row (`imIn->image[yy][x*4+b]`). -/
def weightedSumPacked (f : filter) (n m : ℕ) (row : List ℕ) (b xx : ℕ) : ℚ :=
  ∑ x in Finset.Ico (xminOf f n m xx) (xmaxOf f n m xx),
    (row.getD (x.toNat * 4 + b) 0 : ℚ) * weightOf f n m xx x

/-- Antialias.c:217-226: one destination lane of the packed UINT8 path. -/
def pixelPacked (f : filter) (n m : ℕ) (row : List ℕ) (b xx : ℕ) : ℕ :=
  clamp8 (weightedSumPacked f n m row b xx * normOf f n m xx + 1/2)

/-- Antialias.c:214-216: the lanes written for a packed row — `0..bands-1`,
except that a 2-band (LA) image writes lanes 0 and 3. -/
def lanesOf (bands : ℕ) : List ℕ :=
  if bands = 2 then [0, 3] else List.range bands

/-- Antialias.c:213-228: the packed destination row after the loop over
`xx` and the per-band stores at `imOut->image[yy][xx*4+b]`; the lanes
not written keep the destination row's previous bytes. -/
def writePackedRow (f : filter) (n m bands : ℕ) (srcRow destRow : List ℕ) :
    List ℕ :=
  (List.range m).foldl (fun acc xx =>
    (lanesOf bands).foldl
      (fun acc2 b => acc2.set (xx * 4 + b) (pixelPacked f n m srcRow b xx))
      acc) destRow

/-- Antialias.c:233-235: the weighted sum over an INT32 row. -/
def weightedSumI (f : filter) (n m : ℕ) (row : List ℤ) (xx : ℕ) : ℚ :=
  ∑ x in Finset.Ico (xminOf f n m xx) (xmaxOf f n m xx),
    (row.getD x.toNat 0 : ℚ) * weightOf f n m xx x

/-- Antialias.c:236, `IMAGING_PIXEL_I(imOut, xx, yy) = (int) ss * ww`:
the sum is first truncated by the `(int)` cast, the float product with
`ww` is then truncated again by the assignment to the INT32 lvalue. -/
def pixelI (f : filter) (n m : ℕ) (row : List ℤ) (xx : ℕ) : ℤ :=
  trunc ((trunc (weightedSumI f n m row xx) : ℚ) * normOf f n m xx)

/-- Antialias.c:242-244: the weighted sum over a FLOAT32 row. -/
def weightedSumF (f : filter) (n m : ℕ) (row : List ℚ) (xx : ℕ) : ℚ :=
  ∑ x in Finset.Ico (xminOf f n m xx) (xmaxOf f n m xx),
    (row.getD x.toNat 0 : ℚ) * weightOf f n m xx x

/-- Antialias.c:245, `IMAGING_PIXEL_F(imOut, xx, yy) = ss * ww`. -/
def pixelF (f : filter) (n m : ℕ) (row : List ℚ) (xx : ℕ) : ℚ :=
  weightedSumF f n m row xx * normOf f n m xx

/-- The packed rows of a pixel store (empty for the other layouts). -/
def packedRowsOf : PixelData → List (List ℕ)
  | .packedUINT8 _ rows => rows
  | _ => []

/-- Antialias.c:176-252, the reduction stage of
`ImagingStretchHorizaontal` after mode/height/filter validation: per
destination column the window, weights and normalizer are recomputed and
every destination row is reduced according to the source pixel layout.
The `default:` branch of the switch returns a mode error — reached at
the first column, hence only when the destination has at least one
column (an empty destination never enters the loop and returns
successfully). -/
def stretchCore (f : filter) (imOut imIn : Imaging) :
    Except ImagingError Imaging :=
  match imIn.data with
  | .image8 srcRows =>
    let newRows := (List.range imOut.ysize).map fun yy =>
      (List.range imOut.xsize).map fun xx =>
        pixel8 f imIn.xsize imOut.xsize (srcRows.getD yy []) xx
    .ok { imOut with data := .image8 newRows }
  | .packedUINT8 bands srcRows =>
    let newRows := (List.range imOut.ysize).map fun yy =>
      writePackedRow f imIn.xsize imOut.xsize bands (srcRows.getD yy [])
        ((packedRowsOf imOut.data).getD yy [])
    .ok { imOut with data := .packedUINT8 bands newRows }
  | .int32 srcRows =>
    let newRows := (List.range imOut.ysize).map fun yy =>
      (List.range imOut.xsize).map fun xx =>
        pixelI f imIn.xsize imOut.xsize (srcRows.getD yy []) xx
    .ok { imOut with data := .int32 newRows }
  | .float32 srcRows =>
    let newRows := (List.range imOut.ysize).map fun yy =>
      (List.range imOut.xsize).map fun xx =>
        pixelF f imIn.xsize imOut.xsize (srcRows.getD yy []) xx
    .ok { imOut with data := .float32 newRows }
  | .unsupportedType =>
    if imOut.xsize = 0 then .ok imOut else .error .modeError

/-- Antialias.c:81-259, `ImagingStretchHorizaontal` (the source file's
spelling): mode check, height check, filter dispatch, then the
planning/reduction passes.  `aa` is the caller-supplied rational model
of the transcendental ANTIALIAS descriptor (see the note above). -/
def ImagingStretchHorizaontal (aa : filter) (imOut imIn : Imaging)
    (tag : TransformFilter) : Except ImagingError Imaging :=
  if imIn.mode ≠ imOut.mode then .error .modeError
  else if imOut.ysize ≠ imIn.ysize then
    .error (.valueError ("ImagingStretchHorizaontal requires equal heights"))
  else
    match tag with
    | .nearest => stretchCore NEAREST imOut imIn
    | .antialias => stretchCore aa imOut imIn
    | .bilinear => stretchCore BILINEAR imOut imIn
    | .bicubic => stretchCore BICUBIC imOut imIn
    | .unknown => .error (.valueError ("unsupported resampling filter"))

/-- The external collaborators of `ImagingStretch` (Antialias.c:262-319):
`ImagingNew(mode, xsize, ysize)` and `ImagingTranspose(imOut, imIn)`,
both returning `none` on failure.  They live outside this source file;
theorems quantify over them. -/
structure Collaborators where
  imagingNew : String → ℕ → ℕ → Option Imaging
  imagingTranspose : Imaging → Imaging → Option Imaging

/-- Antialias.c:262-319, `ImagingStretch`: reject "P" and "1" modes,
then the two-pass resize (horizontal stretch, transpose, horizontal
stretch, transpose), failing as soon as any stage fails. -/
def ImagingStretch (co : Collaborators) (aa : filter) (imOut imIn : Imaging)
    (tag : TransformFilter) : Except ImagingError Imaging :=
  if imIn.mode = "P" ∨ imIn.mode = "1" then .error .modeError
  else
    match co.imagingNew imIn.mode imOut.xsize imIn.ysize with
    | none => .error .memoryError
    | some imTemp1 =>
      match ImagingStretchHorizaontal aa imTemp1 imIn tag with
      | .error e => .error e
      | .ok imTemp1 =>
        match co.imagingNew imIn.mode imIn.ysize imOut.xsize with
        | none => .error .memoryError
        | some imTemp2 =>
          match co.imagingTranspose imTemp2 imTemp1 with
          | none => .error .memoryError
          | some imTemp2 =>
            match co.imagingNew imIn.mode imOut.ysize imOut.xsize with
            | none => .error .memoryError
            | some imTemp3 =>
              match ImagingStretchHorizaontal aa imTemp3 imTemp2 tag with
              | .error e => .error e
              | .ok imTemp3 =>
                match co.imagingTranspose imOut imTemp3 with
                | none => .error .memoryError
                | some res => .ok res

/-! ## Helper lemmas -/

theorem one_le_filterscaleOf (n m : ℕ) : 1 ≤ filterscaleOf n m := by
  unfold filterscaleOf
  split
  · exact le_refl 1
  · exact le_of_not_lt (by assumption)

theorem scaleOf_nonneg (n m : ℕ) : 0 ≤ scaleOf n m :=
  div_nonneg (Nat.cast_nonneg n) (Nat.cast_nonneg m)

theorem centerOf_nonneg (n m xx : ℕ) : 0 ≤ centerOf n m xx :=
  mul_nonneg (by positivity) (scaleOf_nonneg n m)

theorem supportOf_nonneg (f : filter) (n m : ℕ) (hs : 0 ≤ f.support) :
    0 ≤ supportOf f n m :=
  mul_nonneg hs (le_trans zero_le_one (one_le_filterscaleOf n m))

theorem xminOf_nonneg (f : filter) (n m xx : ℕ) : 0 ≤ xminOf f n m xx :=
  le_max_left 0 _

theorem xmaxOf_le (f : filter) (n m xx : ℕ) : xmaxOf f n m xx ≤ (n : ℤ) :=
  min_le_left _ _

theorem centerOf_le (n m xx : ℕ) (hxx : xx < m) : centerOf n m xx ≤ (n : ℚ) := by
  have hm : (0 : ℚ) < (m : ℚ) := by
    exact_mod_cast Nat.pos_of_ne_zero (fun h => by omega)
  have hxq : ((xx : ℚ) + 1/2) ≤ (m : ℚ) := by
    have : ((xx : ℚ) + 1) ≤ (m : ℚ) := by exact_mod_cast hxx
    linarith
  unfold centerOf scaleOf
  calc ((xx : ℚ) + 1/2) * ((n : ℚ) / (m : ℚ))
      ≤ (m : ℚ) * ((n : ℚ) / (m : ℚ)) :=
        mul_le_mul_of_nonneg_right hxq (div_nonneg (Nat.cast_nonneg n) hm.le)
    _ = (n : ℚ) := mul_div_cancel₀ _ hm.ne'

theorem xminOf_le_xmaxOf (f : filter) (n m xx : ℕ) (hs : 0 ≤ f.support)
    (hxx : xx < m) : xminOf f n m xx ≤ xmaxOf f n m xx := by
  have hsup := supportOf_nonneg f n m hs
  apply max_le
  · apply le_min (Int.ofNat_nonneg n)
    exact Int.ceil_nonneg (by linarith [centerOf_nonneg n m xx])
  · apply le_min
    · have h1 : centerOf n m xx - supportOf f n m ≤ (n : ℚ) := by
        linarith [centerOf_le n m xx hxx]
      calc ⌊centerOf n m xx - supportOf f n m⌋ ≤ ⌊(n : ℚ)⌋ :=
            Int.floor_le_floor h1
        _ = (n : ℤ) := Int.floor_natCast n
    · calc ⌊centerOf n m xx - supportOf f n m⌋
          ≤ ⌊centerOf n m xx + supportOf f n m⌋ :=
            Int.floor_le_floor (by linarith)
        _ ≤ ⌈centerOf n m xx + supportOf f n m⌉ := Int.floor_le_ceil _

theorem window_mem_bounds (f : filter) (n m xx : ℕ) (x : ℤ)
    (hx : x ∈ Finset.Ico (xminOf f n m xx) (xmaxOf f n m xx)) :
    0 ≤ x ∧ x.toNat < n := by
  rw [Finset.mem_Ico] at hx
  have h0 : 0 ≤ x := le_trans (xminOf_nonneg f n m xx) hx.1
  have hn : x < (n : ℤ) := lt_of_lt_of_le hx.2 (xmaxOf_le f n m xx)
  exact ⟨h0, by omega⟩

/-! ## C3: window bounds invariant -/

/-- Claim C3: for every filter (any evaluator, nonnegative support),
every source length `n`, destination length `m ≥ 1` and output position
`xx < m`, the clamped window of the planning/compute loops satisfies
`0 ≤ xmin ≤ xmax ≤ n`. -/
theorem claim_c3 (f : filter) (n m xx : ℕ) (hs : 0 ≤ f.support)
    (hm : 1 ≤ m) (hxx : xx < m) :
    0 ≤ xminOf f n m xx ∧ xminOf f n m xx ≤ xmaxOf f n m xx ∧
      xmaxOf f n m xx ≤ (n : ℤ) :=
  ⟨xminOf_nonneg f n m xx, xminOf_le_xmaxOf f n m xx hs hxx,
    xmaxOf_le f n m xx⟩

/-- Witness for C3 at the bicubic descriptor, sizes 5 → 3, position 2. -/
theorem claim_c3_witness :
    0 ≤ xminOf BICUBIC 5 3 2 ∧ xminOf BICUBIC 5 3 2 ≤ xmaxOf BICUBIC 5 3 2 ∧
      xmaxOf BICUBIC 5 3 2 ≤ (5 : ℤ) :=
  claim_c3 BICUBIC 5 3 2 (by decide) (by decide) (by decide)

/-! ## C2: normalization and flat-field preservation -/

theorem weightedSumF_const (f : filter) (n m xx : ℕ) (c : ℚ) :
    weightedSumF f n m (List.replicate n c) xx = c * wwOf f n m xx := by
  unfold weightedSumF wwOf
  rw [Finset.mul_sum]
  refine Finset.sum_congr rfl (fun x hx => ?_)
  obtain ⟨h0, hn⟩ := window_mem_bounds f n m xx x hx
  rw [List.getD_eq_getElem?_getD, List.getElem?_replicate_of_lt hn]
  rfl

/-- Claim C2: whenever the weight total over the window is nonzero, the
un-normalized weight sum times the stored reciprocal `norm` is exactly 1,
and consequently a constant float32 source row resamples to the same
constant (flat-field preservation), exactly in the rational model of the
float arithmetic.  A zero weight total also covers the empty window, so
the nonemptiness of the claim is subsumed by the hypothesis. -/
theorem claim_c2 (f : filter) (n m xx : ℕ) (c : ℚ)
    (hww : wwOf f n m xx ≠ 0) :
    wwOf f n m xx * normOf f n m xx = 1 ∧
      pixelF f n m (List.replicate n c) xx = c := by
  have hnorm : wwOf f n m xx * normOf f n m xx = 1 := by
    unfold normOf
    rw [if_neg hww]
    field_simp
  refine ⟨hnorm, ?_⟩
  unfold pixelF
  rw [weightedSumF_const, mul_assoc, hnorm, mul_one]

/-- Witness for C2: bilinear, 2 → 1 (window of two taps), constant 7. -/
theorem claim_c2_witness :
    wwOf BILINEAR 2 1 0 * normOf BILINEAR 2 1 0 = 1 ∧
      pixelF BILINEAR 2 1 (List.replicate 2 (7 : ℚ)) 0 = 7 :=
  claim_c2 BILINEAR 2 1 0 7 (by decide)

/-! ## C4: 8-bit rounding and saturation -/

theorem clamp8_eq_clip (s : ℚ) :
    (clamp8 s : ℤ) = max 0 (min 255 ⌊s⌋) ∧ clamp8 s ≤ 255 := by
  unfold clamp8
  by_cases h1 : s < 1/2
  · rw [if_pos h1]
    have h0 : ⌊s⌋ ≤ 0 := by
      have := Int.floor_le_floor h1.le
      simpa using this
    constructor
    · rw [min_eq_right (by omega), max_eq_left h0]
      rfl
    · omega
  · rw [if_neg h1]
    push_neg at h1
    have hfl : 0 ≤ ⌊s⌋ := by
      have := Int.floor_le_floor h1
      simpa using this
    by_cases h255 : 255 ≤ s
    · rw [if_pos h255]
      have : (255 : ℤ) ≤ ⌊s⌋ := Int.le_floor.mpr (by exact_mod_cast h255)
      constructor
      · rw [min_eq_left this, max_eq_right (by omega)]
        rfl
      · omega
    · rw [if_neg h255]
      push_neg at h255
      have hlt : ⌊s⌋ < 255 := Int.floor_lt.mpr (by exact_mod_cast h255)
      constructor
      · rw [Int.toNat_of_nonneg hfl, min_eq_right (by omega),
          max_eq_right hfl]
      · omega

/-- Claim C4: every 8-bit value written by the reduction (single-channel
`pixel8` and packed `pixelPacked`, which covers the 2-band case through
`lanesOf`) is the biased value `sum*norm + 0.5` floored (round-half-up by
truncation, since the biased value is only truncated when it lies in
[0.5, 255)) and clipped to [0, 255]; in particular every written value is
at most 255 (and at least 0 by type). -/
theorem claim_c4 (f : filter) (n m : ℕ) (row prow : List ℕ) (b xx : ℕ) :
    (pixel8 f n m row xx : ℤ) =
        max 0 (min 255 ⌊weightedSum8 f n m row xx * normOf f n m xx + 1/2⌋) ∧
      pixel8 f n m row xx ≤ 255 ∧
      (pixelPacked f n m prow b xx : ℤ) =
        max 0 (min 255
          ⌊weightedSumPacked f n m prow b xx * normOf f n m xx + 1/2⌋) ∧
      pixelPacked f n m prow b xx ≤ 255 := by
  obtain ⟨h1, h2⟩ := clamp8_eq_clip
    (weightedSum8 f n m row xx * normOf f n m xx + 1/2)
  obtain ⟨h3, h4⟩ := clamp8_eq_clip
    (weightedSumPacked f n m prow b xx * normOf f n m xx + 1/2)
  exact ⟨h1, h2, h3, h4⟩

/-! ## C5: INT32 truncate-then-scale order -/

/-- Claim C5: the INT32 path stores `(int) ss * ww` — the weighted sum is
truncated toward zero by the `(int)` cast first and only then multiplied
by the reciprocal normalizer (the assignment to the INT32 pixel truncates
the resulting float product once more); it is not the truncation of the
normalized sum, as the 1 → 2 bilinear upscale of the row `[5]` shows:
the code stores 4 while truncate-after-scaling would store 5. -/
theorem claim_c5 (f : filter) (n m : ℕ) (row : List ℤ) (xx : ℕ) :
    pixelI f n m row xx =
        trunc ((trunc (weightedSumI f n m row xx) : ℚ) * normOf f n m xx) ∧
      pixelI BILINEAR 1 2 [(5 : ℤ)] 0 = 4 ∧
      trunc (weightedSumI BILINEAR 1 2 [(5 : ℤ)] 0 * normOf BILINEAR 1 2 0)
        = 5 := by
  refine ⟨rfl, by decide, by decide⟩

/-! ## C6: the 8-to-4 bilinear end-to-end scenario -/

/-- Counterexample to claim C6 as stated: resampling the 8×1 8-bit row
`[10,20,30,40,50,60,70,80]` to width 4 with the bilinear filter produces
`[17,35,55,73]`, and the first output pixel is 17, which is not within
tolerance 1 of the claimed value 15 (the deviation is 2), so the output
is not approximately `[15,35,55,75]` under a one-unit rounding
tolerance.  The edge windows are clipped to three taps and renormalized,
which pulls the edge outputs inward. -/
theorem claim_c6_counterexample :
    (List.range 4).map (pixel8 BILINEAR 8 4 [10, 20, 30, 40, 50, 60, 70, 80])
        = [17, 35, 55, 73] ∧
      ¬ (∀ i < 4,
        ((((List.range 4).map
            (pixel8 BILINEAR 8 4 [10, 20, 30, 40, 50, 60, 70, 80])).getD i 0
              : ℤ)
          - (([15, 35, 55, 75] : List ℕ).getD i 0 : ℤ)).natAbs ≤ 1) := by
  decide

/-- Claim C6, amended: the full 1-D stretch of the 8×1 8-bit row
`[10,20,30,40,50,60,70,80]` to width 4 with the bilinear filter yields
exactly `[17,35,55,73]`: the interior outputs 35 and 55 equal the
predicted two-neighbor averages, while the edge outputs are 17 and 73
(not 15 and 75) because their clipped three-tap windows are
renormalized; every output is within 2 of the values the claim stated. -/
theorem claim_c6 :
    ImagingStretchHorizaontal NEAREST
        ⟨"L", 4, 1, .image8 [[0, 0, 0, 0]]⟩
        ⟨"L", 8, 1, .image8 [[10, 20, 30, 40, 50, 60, 70, 80]]⟩ .bilinear
      = .ok ⟨"L", 4, 1, .image8 [[17, 35, 55, 73]]⟩ ∧
    ∀ i < 4,
      ((((List.range 4).map
          (pixel8 BILINEAR 8 4 [10, 20, 30, 40, 50, 60, 70, 80])).getD i 0
            : ℤ)
        - (([15, 35, 55, 75] : List ℕ).getD i 0 : ℤ)).natAbs ≤ 2 := by
  decide

/-! ## C1: nearest filter at equal sizes is the identity -/

theorem scaleOf_self (n : ℕ) (hn : n ≠ 0) : scaleOf n n = 1 :=
  div_self (Nat.cast_ne_zero.mpr hn)

theorem filterscaleOf_self (n : ℕ) (hn : n ≠ 0) : filterscaleOf n n = 1 := by
  unfold filterscaleOf
  rw [scaleOf_self n hn]
  norm_num

theorem centerOf_self (n xx : ℕ) (hn : n ≠ 0) :
    centerOf n n xx = (xx : ℚ) + 1/2 := by
  unfold centerOf
  rw [scaleOf_self n hn, mul_one]

theorem supportOf_nearest_self (n : ℕ) (hn : n ≠ 0) :
    supportOf NEAREST n n = 1/2 := by
  unfold supportOf
  rw [filterscaleOf_self n hn]
  norm_num [NEAREST]

theorem xminOf_nearest_self (n xx : ℕ) (hn : n ≠ 0) :
    xminOf NEAREST n n xx = (xx : ℤ) := by
  unfold xminOf
  rw [centerOf_self n xx hn, supportOf_nearest_self n hn]
  have h : (xx : ℚ) + 1/2 - 1/2 = ((xx : ℤ) : ℚ) := by push_cast; ring
  rw [h, Int.floor_intCast]
  exact max_eq_right (Int.ofNat_nonneg xx)

theorem xmaxOf_nearest_self (n xx : ℕ) (hn : n ≠ 0) (hxx : xx < n) :
    xmaxOf NEAREST n n xx = (xx : ℤ) + 1 := by
  unfold xmaxOf
  rw [centerOf_self n xx hn, supportOf_nearest_self n hn]
  have h : (xx : ℚ) + 1/2 + 1/2 = (((xx : ℤ) + 1 : ℤ) : ℚ) := by
    push_cast; ring
  rw [h, Int.ceil_intCast]
  exact min_eq_right (by exact_mod_cast hxx)

theorem weightOf_nearest_self (n xx : ℕ) (hn : n ≠ 0) :
    weightOf NEAREST n n xx (xx : ℤ) = 1 := by
  unfold weightOf
  rw [centerOf_self n xx hn, filterscaleOf_self n hn]
  have h : ((xx : ℤ) : ℚ) - ((xx : ℚ) + 1/2) + 1/2 = 0 := by push_cast; ring
  rw [h, zero_mul]
  show NEAREST.filter 0 * (1 / 1) = 1
  norm_num [NEAREST, nearest_filter]

theorem Ico_self_add_one (a : ℤ) : Finset.Ico a (a + 1) = {a} := by
  ext x
  simp only [Finset.mem_Ico, Finset.mem_singleton]
  omega

theorem wwOf_nearest_self (n xx : ℕ) (hn : n ≠ 0) (hxx : xx < n) :
    wwOf NEAREST n n xx = 1 := by
  unfold wwOf
  rw [xminOf_nearest_self n xx hn, xmaxOf_nearest_self n xx hn hxx,
    Ico_self_add_one, Finset.sum_singleton, weightOf_nearest_self n xx hn]

theorem normOf_nearest_self (n xx : ℕ) (hn : n ≠ 0) (hxx : xx < n) :
    normOf NEAREST n n xx = 1 := by
  unfold normOf
  rw [wwOf_nearest_self n xx hn hxx]
  norm_num

theorem weightedSum8_nearest_self (n xx : ℕ) (row : List ℕ) (hn : n ≠ 0)
    (hxx : xx < n) :
    weightedSum8 NEAREST n n row xx = (row.getD xx 0 : ℚ) := by
  unfold weightedSum8
  rw [xminOf_nearest_self n xx hn, xmaxOf_nearest_self n xx hn hxx,
    Ico_self_add_one, Finset.sum_singleton, weightOf_nearest_self n xx hn,
    mul_one, Int.toNat_natCast]

theorem weightedSumI_nearest_self (n xx : ℕ) (row : List ℤ) (hn : n ≠ 0)
    (hxx : xx < n) :
    weightedSumI NEAREST n n row xx = (row.getD xx 0 : ℚ) := by
  unfold weightedSumI
  rw [xminOf_nearest_self n xx hn, xmaxOf_nearest_self n xx hn hxx,
    Ico_self_add_one, Finset.sum_singleton, weightOf_nearest_self n xx hn,
    mul_one, Int.toNat_natCast]

theorem weightedSumF_nearest_self (n xx : ℕ) (row : List ℚ) (hn : n ≠ 0)
    (hxx : xx < n) :
    weightedSumF NEAREST n n row xx = row.getD xx 0 := by
  unfold weightedSumF
  rw [xminOf_nearest_self n xx hn, xmaxOf_nearest_self n xx hn hxx,
    Ico_self_add_one, Finset.sum_singleton, weightOf_nearest_self n xx hn,
    mul_one, Int.toNat_natCast]

theorem pixel8_nearest_self (n xx : ℕ) (row : List ℕ) (hn : n ≠ 0)
    (hxx : xx < n) (hv : row.getD xx 0 < 256) :
    pixel8 NEAREST n n row xx = row.getD xx 0 := by
  unfold pixel8
  rw [weightedSum8_nearest_self n xx row hn hxx,
    normOf_nearest_self n xx hn hxx, mul_one]
  set v := row.getD xx 0 with hvdef
  unfold clamp8
  have h0 : ¬ ((v : ℚ) + 1/2 < 1/2) := by
    push_neg
    have : (0 : ℚ) ≤ (v : ℚ) := Nat.cast_nonneg v
    linarith
  rw [if_neg h0]
  by_cases h255 : (255 : ℚ) ≤ (v : ℚ) + 1/2
  · have hge : (255 : ℕ) ≤ v := by
      have : (254 : ℚ) < (v : ℚ) := by linarith
      exact_mod_cast this
    rw [if_pos h255]
    omega
  · rw [if_neg h255]
    have hfl : ⌊(v : ℚ) + 1/2⌋ = (v : ℤ) := by
      rw [Int.floor_eq_iff]
      constructor
      · push_cast; linarith
      · push_cast; linarith
    rw [hfl, Int.toNat_natCast]

theorem trunc_intCast (v : ℤ) : trunc ((v : ℤ) : ℚ) = v := by
  unfold trunc
  split
  · exact Int.floor_intCast v
  · exact Int.ceil_intCast v

theorem pixelI_nearest_self (n xx : ℕ) (row : List ℤ) (hn : n ≠ 0)
    (hxx : xx < n) :
    pixelI NEAREST n n row xx = row.getD xx 0 := by
  unfold pixelI
  rw [weightedSumI_nearest_self n xx row hn hxx,
    normOf_nearest_self n xx hn hxx, trunc_intCast, mul_one, trunc_intCast]

theorem pixelF_nearest_self (n xx : ℕ) (row : List ℚ) (hn : n ≠ 0)
    (hxx : xx < n) :
    pixelF NEAREST n n row xx = row.getD xx 0 := by
  unfold pixelF
  rw [weightedSumF_nearest_self n xx row hn hxx,
    normOf_nearest_self n xx hn hxx, mul_one]

theorem map_range_getD {α : Type} (l : List α) (d : α) :
    (List.range l.length).map (fun i => l.getD i d) = l := by
  induction l with
  | nil => simp
  | cons a t ih =>
    rw [List.length_cons, List.range_succ_eq_map, List.map_cons,
      List.map_map]
    have h : ((fun i => (a :: t).getD i d) ∘ Nat.succ)
        = fun i => t.getD i d := by
      funext i
      simp [Function.comp, List.getD_cons_succ]
    rw [h, ih, List.getD_cons_zero]

theorem getD_mem {α : Type} (l : List α) (i : ℕ) (d : α) (h : i < l.length) :
    l.getD i d ∈ l := by
  rw [List.getD_eq_getElem?_getD, List.getElem?_eq_getElem h]
  exact List.getElem_mem h

/-- Well-formed 8-bit grayscale plane: `y` rows of length `x`, every
sample a byte. -/
def rows8Wf (rows : List (List ℕ)) (x y : ℕ) : Prop :=
  rows.length = y ∧ ∀ r ∈ rows, r.length = x ∧ ∀ v ∈ r, v < 256

/-- Well-formed plane of any sample type: `y` rows of length `x`. -/
def rowsWf {α : Type} (rows : List (List α)) (x y : ℕ) : Prop :=
  rows.length = y ∧ ∀ r ∈ rows, r.length = x

instance (rows : List (List ℕ)) (x y : ℕ) : Decidable (rows8Wf rows x y) := by
  unfold rows8Wf
  infer_instance

instance {α : Type} [DecidableEq α] (rows : List (List α)) (x y : ℕ) :
    Decidable (rowsWf rows x y) := by
  unfold rowsWf
  infer_instance

/-- Claim C1: with matching modes, equal heights, and destination width
equal to source width, the 1-D stretch with the Nearest filter is the
identity for well-formed 8-bit grayscale, INT32 and FLOAT32 planes:
every destination pixel equals the corresponding source pixel, so the
result carries exactly the source pixel data.  (`aa` is the rational
model of the ANTIALIAS evaluator, irrelevant to the nearest tag.) -/
theorem claim_c1 (aa : filter) (imOut imIn : Imaging)
    (hmode : imIn.mode = imOut.mode) (hy : imOut.ysize = imIn.ysize)
    (hx : imOut.xsize = imIn.xsize)
    (hdata :
      (∃ rows, imIn.data = .image8 rows ∧
        rows8Wf rows imIn.xsize imIn.ysize) ∨
      (∃ rows, imIn.data = .int32 rows ∧
        rowsWf rows imIn.xsize imIn.ysize) ∨
      (∃ rows, imIn.data = .float32 rows ∧
        rowsWf rows imIn.xsize imIn.ysize)) :
    ImagingStretchHorizaontal aa imOut imIn .nearest
      = .ok { imOut with data := imIn.data } := by
  have hcore : stretchCore NEAREST imOut imIn
      = .ok { imOut with data := imIn.data } := by
    rcases hdata with ⟨rows, hrows, hwf⟩ | ⟨rows, hrows, hwf⟩ |
      ⟨rows, hrows, hwf⟩
    · simp only [stretchCore, hrows]
      congr 3
      rw [hx, hy, ← hwf.1]
      conv_rhs => rw [← map_range_getD rows []]
      refine List.map_congr_left (fun yy hyy => ?_)
      rw [List.mem_range] at hyy
      have hrow := hwf.2 (rows.getD yy []) (getD_mem rows yy [] hyy)
      conv_rhs => rw [← map_range_getD (rows.getD yy []) 0]
      rw [hrow.1]
      refine List.map_congr_left (fun xx hxx => ?_)
      rw [List.mem_range] at hxx
      refine pixel8_nearest_self _ _ _ (by omega) hxx
        (hrow.2 _ (getD_mem _ xx 0 (by omega)))
    · simp only [stretchCore, hrows]
      congr 3
      rw [hx, hy, ← hwf.1]
      conv_rhs => rw [← map_range_getD rows []]
      refine List.map_congr_left (fun yy hyy => ?_)
      rw [List.mem_range] at hyy
      have hrow := hwf.2 (rows.getD yy []) (getD_mem rows yy [] hyy)
      conv_rhs => rw [← map_range_getD (rows.getD yy []) 0]
      rw [hrow]
      refine List.map_congr_left (fun xx hxx => ?_)
      rw [List.mem_range] at hxx
      exact pixelI_nearest_self _ _ _ (by omega) hxx
    · simp only [stretchCore, hrows]
      congr 3
      rw [hx, hy, ← hwf.1]
      conv_rhs => rw [← map_range_getD rows []]
      refine List.map_congr_left (fun yy hyy => ?_)
      rw [List.mem_range] at hyy
      have hrow := hwf.2 (rows.getD yy []) (getD_mem rows yy [] hyy)
      conv_rhs => rw [← map_range_getD (rows.getD yy []) 0]
      rw [hrow]
      refine List.map_congr_left (fun xx hxx => ?_)
      rw [List.mem_range] at hxx
      exact pixelF_nearest_self _ _ _ (by omega) hxx
  unfold ImagingStretchHorizaontal
  rw [if_neg (by simp [hmode]), if_neg (by simp [hy])]
  exact hcore

/-- Witness for C1: a 2×1 8-bit image is returned unchanged by the
nearest stretch to the same size. -/
theorem claim_c1_witness :
    ImagingStretchHorizaontal NEAREST
        ⟨"L", 2, 1, .image8 [[0, 0]]⟩ ⟨"L", 2, 1, .image8 [[7, 200]]⟩
        .nearest
      = .ok ⟨"L", 2, 1, .image8 [[7, 200]]⟩ :=
  claim_c1 NEAREST ⟨"L", 2, 1, .image8 [[0, 0]]⟩
    ⟨"L", 2, 1, .image8 [[7, 200]]⟩ rfl rfl rfl
    (.inl ⟨[[7, 200]], rfl, by decide⟩)

/-! ## C7: planning pass agrees with the hot loop; caching refinement

`planBoundsEntry` and `planCoeffs` transliterate the planning loop of
Antialias.c:149-172 (the `xbounds` triple and the `k` row of `kk`),
keeping its `if`-style clamps.  The hot loop of Antialias.c:176-194
recomputes the same expressions; its quantities are the `xminOf`,
`xmaxOf`, `weightOf`, `normOf` definitions that `stretchCore` consumes.
`stretchCoreCached` is the implementation the spec's words describe:
it caches the planning tables and reuses them in the reduction. -/

/-- Antialias.c:149-172: the `xbounds` entry (xmin, xmax, reciprocal
normalizer) computed by the planning pass for output position `xx`. -/
def planBoundsEntry (f : filter) (n m xx : ℕ) : ℤ × ℤ × ℚ :=
  let scale := (n : ℚ) / (m : ℚ)
  let filterscale := if scale < 1 then 1 else scale
  let support := f.support * filterscale
  let center := ((xx : ℚ) + 1/2) * scale
  let ss := 1 / filterscale
  let xmin0 := ⌊center - support⌋
  let xmin := if xmin0 < 0 then 0 else xmin0
  let xmax0 := ⌈center + support⌉
  let xmax := if (n : ℤ) < xmax0 then (n : ℤ) else xmax0
  let ww := ∑ x in Finset.Ico xmin xmax,
    f.filter (((x : ℚ) - center + 1/2) * ss) * ss
  (xmin, xmax, if ww = 0 then 1 else 1 / ww)

/-- Antialias.c:160-163: the coefficient row stored at `kk + xx*kmax` by
the planning pass; entry `i` is the weight of source sample `xmin + i`. -/
def planCoeffs (f : filter) (n m xx : ℕ) : List ℚ :=
  let scale := (n : ℚ) / (m : ℚ)
  let filterscale := if scale < 1 then 1 else scale
  let support := f.support * filterscale
  let center := ((xx : ℚ) + 1/2) * scale
  let ss := 1 / filterscale
  let xmin0 := ⌊center - support⌋
  let xmin := if xmin0 < 0 then 0 else xmin0
  let xmax0 := ⌈center + support⌉
  let xmax := if (n : ℤ) < xmax0 then (n : ℤ) else xmax0
  (List.range (xmax - xmin).toNat).map fun i =>
    f.filter ((((xmin + Int.ofNat i : ℤ) : ℚ) - center + 1/2) * ss) * ss

/-- The hot-loop weights of one window, collected as a list indexed like
the planning pass's coefficient row. -/
def windowWeights (f : filter) (n m xx : ℕ) : List ℚ :=
  (List.range (xmaxOf f n m xx - xminOf f n m xx).toNat).map fun i =>
    weightOf f n m xx (xminOf f n m xx + Int.ofNat i)

/-- The full `xbounds` table of the planning pass. -/
def xboundsTable (f : filter) (n m : ℕ) : List (ℤ × ℤ × ℚ) :=
  (List.range m).map (planBoundsEntry f n m)

/-- The full coefficient table `kk` of the planning pass. -/
def kkTable (f : filter) (n m : ℕ) : List (List ℚ) :=
  (List.range m).map (planCoeffs f n m)

/-- Caching implementation of the 8-bit pixel: reuses the planning
tables instead of recomputing window and weights. -/
def cachedPixel8 (f : filter) (n m : ℕ) (row : List ℕ) (xx : ℕ) : ℕ :=
  let e := (xboundsTable f n m).getD xx (0, 0, 1)
  let ks := (kkTable f n m).getD xx []
  clamp8 ((∑ x in Finset.Ico e.1 e.2.1,
    (row.getD x.toNat 0 : ℚ) * ks.getD (x - e.1).toNat 0) * e.2.2 + 1/2)

/-- Caching implementation of one packed UINT8 lane. -/
def cachedPixelPacked (f : filter) (n m : ℕ) (row : List ℕ) (b xx : ℕ) :
    ℕ :=
  let e := (xboundsTable f n m).getD xx (0, 0, 1)
  let ks := (kkTable f n m).getD xx []
  clamp8 ((∑ x in Finset.Ico e.1 e.2.1,
    (row.getD (x.toNat * 4 + b) 0 : ℚ) * ks.getD (x - e.1).toNat 0)
      * e.2.2 + 1/2)

/-- Caching implementation of one INT32 pixel. -/
def cachedPixelI (f : filter) (n m : ℕ) (row : List ℤ) (xx : ℕ) : ℤ :=
  let e := (xboundsTable f n m).getD xx (0, 0, 1)
  let ks := (kkTable f n m).getD xx []
  trunc ((trunc (∑ x in Finset.Ico e.1 e.2.1,
    (row.getD x.toNat 0 : ℚ) * ks.getD (x - e.1).toNat 0) : ℚ) * e.2.2)

/-- Caching implementation of one FLOAT32 pixel. -/
def cachedPixelF (f : filter) (n m : ℕ) (row : List ℚ) (xx : ℕ) : ℚ :=
  let e := (xboundsTable f n m).getD xx (0, 0, 1)
  let ks := (kkTable f n m).getD xx []
  (∑ x in Finset.Ico e.1 e.2.1,
    (row.getD x.toNat 0 : ℚ) * ks.getD (x - e.1).toNat 0) * e.2.2

/-- Caching implementation of a packed destination row. -/
def cachedWritePackedRow (f : filter) (n m bands : ℕ)
    (srcRow destRow : List ℕ) : List ℕ :=
  (List.range m).foldl (fun acc xx =>
    (lanesOf bands).foldl
      (fun acc2 b =>
        acc2.set (xx * 4 + b) (cachedPixelPacked f n m srcRow b xx))
      acc) destRow

/-- The caching implementation of the reduction stage: identical control
structure to `stretchCore`, but every pixel is computed from the cached
planning tables. -/
def stretchCoreCached (f : filter) (imOut imIn : Imaging) :
    Except ImagingError Imaging :=
  match imIn.data with
  | .image8 srcRows =>
    let newRows := (List.range imOut.ysize).map fun yy =>
      (List.range imOut.xsize).map fun xx =>
        cachedPixel8 f imIn.xsize imOut.xsize (srcRows.getD yy []) xx
    .ok { imOut with data := .image8 newRows }
  | .packedUINT8 bands srcRows =>
    let newRows := (List.range imOut.ysize).map fun yy =>
      cachedWritePackedRow f imIn.xsize imOut.xsize bands (srcRows.getD yy [])
        ((packedRowsOf imOut.data).getD yy [])
    .ok { imOut with data := .packedUINT8 bands newRows }
  | .int32 srcRows =>
    let newRows := (List.range imOut.ysize).map fun yy =>
      (List.range imOut.xsize).map fun xx =>
        cachedPixelI f imIn.xsize imOut.xsize (srcRows.getD yy []) xx
    .ok { imOut with data := .int32 newRows }
  | .float32 srcRows =>
    let newRows := (List.range imOut.ysize).map fun yy =>
      (List.range imOut.xsize).map fun xx =>
        cachedPixelF f imIn.xsize imOut.xsize (srcRows.getD yy []) xx
    .ok { imOut with data := .float32 newRows }
  | .unsupportedType =>
    if imOut.xsize = 0 then .ok imOut else .error .modeError

theorem ite_neg_eq_max (a : ℤ) : (if a < 0 then 0 else a) = max 0 a := by
  rcases lt_or_le a 0 with h | h
  · rw [if_pos h, max_eq_left h.le]
  · rw [if_neg (not_lt.mpr h), max_eq_right h]

theorem ite_lt_eq_min (n a : ℤ) : (if n < a then n else a) = min n a := by
  rcases lt_or_le n a with h | h
  · rw [if_pos h, min_eq_left h.le]
  · rw [if_neg (not_lt.mpr h), min_eq_right h]

theorem planBoundsEntry_eq (f : filter) (n m xx : ℕ) :
    planBoundsEntry f n m xx
      = (xminOf f n m xx, xmaxOf f n m xx, normOf f n m xx) := by
  simp only [planBoundsEntry, xminOf, xmaxOf, normOf, wwOf, weightOf,
    supportOf, centerOf, filterscaleOf, scaleOf, ite_neg_eq_max,
    ite_lt_eq_min]

theorem planCoeffs_eq (f : filter) (n m xx : ℕ) :
    planCoeffs f n m xx = windowWeights f n m xx := by
  simp only [planCoeffs, windowWeights, xminOf, xmaxOf, weightOf,
    supportOf, centerOf, filterscaleOf, scaleOf, ite_neg_eq_max,
    ite_lt_eq_min]

theorem xboundsTable_getD (f : filter) (n m xx : ℕ) (hxx : xx < m) :
    (xboundsTable f n m).getD xx (0, 0, 1) = planBoundsEntry f n m xx := by
  unfold xboundsTable
  rw [List.getD_eq_getElem?_getD, List.getElem?_map,
    List.getElem?_range hxx]
  rfl

theorem kkTable_getD (f : filter) (n m xx : ℕ) (hxx : xx < m) :
    (kkTable f n m).getD xx [] = planCoeffs f n m xx := by
  unfold kkTable
  rw [List.getD_eq_getElem?_getD, List.getElem?_map,
    List.getElem?_range hxx]
  rfl

theorem windowWeights_getD (f : filter) (n m xx : ℕ) (x : ℤ)
    (h1 : xminOf f n m xx ≤ x) (h2 : x < xmaxOf f n m xx) :
    (windowWeights f n m xx).getD (x - xminOf f n m xx).toNat 0
      = weightOf f n m xx x := by
  unfold windowWeights
  rw [List.getD_eq_getElem?_getD, List.getElem?_map,
    List.getElem?_range (by omega)]
  simp only [Option.map_some', Option.getD_some]
  congr 1
  simp only [Int.ofNat_eq_coe]
  omega

theorem cachedPixel8_eq (f : filter) (n m : ℕ) (row : List ℕ) (xx : ℕ)
    (hxx : xx < m) :
    cachedPixel8 f n m row xx = pixel8 f n m row xx := by
  have he : (xboundsTable f n m).getD xx (0, 0, 1)
      = (xminOf f n m xx, xmaxOf f n m xx, normOf f n m xx) := by
    rw [xboundsTable_getD f n m xx hxx, planBoundsEntry_eq]
  have hk : (kkTable f n m).getD xx [] = windowWeights f n m xx := by
    rw [kkTable_getD f n m xx hxx, planCoeffs_eq]
  have hsum : (∑ x in Finset.Ico (xminOf f n m xx) (xmaxOf f n m xx),
      (row.getD x.toNat 0 : ℚ) *
        (windowWeights f n m xx).getD (x - xminOf f n m xx).toNat 0)
      = weightedSum8 f n m row xx := by
    unfold weightedSum8
    refine Finset.sum_congr rfl (fun x hx => ?_)
    rw [Finset.mem_Ico] at hx
    rw [windowWeights_getD f n m xx x hx.1 hx.2]
  unfold cachedPixel8
  rw [he, hk]
  show clamp8 ((∑ x in Finset.Ico (xminOf f n m xx) (xmaxOf f n m xx),
      (row.getD x.toNat 0 : ℚ) *
        (windowWeights f n m xx).getD (x - xminOf f n m xx).toNat 0)
      * normOf f n m xx + 1/2) = pixel8 f n m row xx
  rw [hsum]
  rfl

theorem cachedPixelPacked_eq (f : filter) (n m : ℕ) (row : List ℕ)
    (b xx : ℕ) (hxx : xx < m) :
    cachedPixelPacked f n m row b xx = pixelPacked f n m row b xx := by
  have he : (xboundsTable f n m).getD xx (0, 0, 1)
      = (xminOf f n m xx, xmaxOf f n m xx, normOf f n m xx) := by
    rw [xboundsTable_getD f n m xx hxx, planBoundsEntry_eq]
  have hk : (kkTable f n m).getD xx [] = windowWeights f n m xx := by
    rw [kkTable_getD f n m xx hxx, planCoeffs_eq]
  have hsum : (∑ x in Finset.Ico (xminOf f n m xx) (xmaxOf f n m xx),
      (row.getD (x.toNat * 4 + b) 0 : ℚ) *
        (windowWeights f n m xx).getD (x - xminOf f n m xx).toNat 0)
      = weightedSumPacked f n m row b xx := by
    unfold weightedSumPacked
    refine Finset.sum_congr rfl (fun x hx => ?_)
    rw [Finset.mem_Ico] at hx
    rw [windowWeights_getD f n m xx x hx.1 hx.2]
  unfold cachedPixelPacked
  rw [he, hk]
  show clamp8 ((∑ x in Finset.Ico (xminOf f n m xx) (xmaxOf f n m xx),
      (row.getD (x.toNat * 4 + b) 0 : ℚ) *
        (windowWeights f n m xx).getD (x - xminOf f n m xx).toNat 0)
      * normOf f n m xx + 1/2) = pixelPacked f n m row b xx
  rw [hsum]
  rfl

theorem cachedPixelI_eq (f : filter) (n m : ℕ) (row : List ℤ) (xx : ℕ)
    (hxx : xx < m) :
    cachedPixelI f n m row xx = pixelI f n m row xx := by
  have he : (xboundsTable f n m).getD xx (0, 0, 1)
      = (xminOf f n m xx, xmaxOf f n m xx, normOf f n m xx) := by
    rw [xboundsTable_getD f n m xx hxx, planBoundsEntry_eq]
  have hk : (kkTable f n m).getD xx [] = windowWeights f n m xx := by
    rw [kkTable_getD f n m xx hxx, planCoeffs_eq]
  have hsum : (∑ x in Finset.Ico (xminOf f n m xx) (xmaxOf f n m xx),
      (row.getD x.toNat 0 : ℚ) *
        (windowWeights f n m xx).getD (x - xminOf f n m xx).toNat 0)
      = weightedSumI f n m row xx := by
    unfold weightedSumI
    refine Finset.sum_congr rfl (fun x hx => ?_)
    rw [Finset.mem_Ico] at hx
    rw [windowWeights_getD f n m xx x hx.1 hx.2]
  unfold cachedPixelI
  rw [he, hk]
  show trunc ((trunc (∑ x in Finset.Ico (xminOf f n m xx) (xmaxOf f n m xx),
      (row.getD x.toNat 0 : ℚ) *
        (windowWeights f n m xx).getD (x - xminOf f n m xx).toNat 0) : ℚ)
      * normOf f n m xx) = pixelI f n m row xx
  rw [hsum]
  rfl

theorem cachedPixelF_eq (f : filter) (n m : ℕ) (row : List ℚ) (xx : ℕ)
    (hxx : xx < m) :
    cachedPixelF f n m row xx = pixelF f n m row xx := by
  have he : (xboundsTable f n m).getD xx (0, 0, 1)
      = (xminOf f n m xx, xmaxOf f n m xx, normOf f n m xx) := by
    rw [xboundsTable_getD f n m xx hxx, planBoundsEntry_eq]
  have hk : (kkTable f n m).getD xx [] = windowWeights f n m xx := by
    rw [kkTable_getD f n m xx hxx, planCoeffs_eq]
  have hsum : (∑ x in Finset.Ico (xminOf f n m xx) (xmaxOf f n m xx),
      (row.getD x.toNat 0 : ℚ) *
        (windowWeights f n m xx).getD (x - xminOf f n m xx).toNat 0)
      = weightedSumF f n m row xx := by
    unfold weightedSumF
    refine Finset.sum_congr rfl (fun x hx => ?_)
    rw [Finset.mem_Ico] at hx
    rw [windowWeights_getD f n m xx x hx.1 hx.2]
  unfold cachedPixelF
  rw [he, hk]
  show (∑ x in Finset.Ico (xminOf f n m xx) (xmaxOf f n m xx),
      (row.getD x.toNat 0 : ℚ) *
        (windowWeights f n m xx).getD (x - xminOf f n m xx).toNat 0)
      * normOf f n m xx = pixelF f n m row xx
  rw [hsum]
  rfl

theorem foldl_congr_mem {α β : Type} (l : List β) (g1 g2 : α → β → α)
    (a : α) (h : ∀ acc x, x ∈ l → g1 acc x = g2 acc x) :
    l.foldl g1 a = l.foldl g2 a := by
  induction l generalizing a with
  | nil => rfl
  | cons b t ih =>
    rw [List.foldl_cons, List.foldl_cons, h a b (List.mem_cons_self b t)]
    exact ih _ (fun acc x hx => h acc x (List.mem_cons_of_mem b hx))

theorem cachedWritePackedRow_eq (f : filter) (n m bands : ℕ)
    (srcRow destRow : List ℕ) :
    cachedWritePackedRow f n m bands srcRow destRow
      = writePackedRow f n m bands srcRow destRow := by
  unfold cachedWritePackedRow writePackedRow
  refine foldl_congr_mem _ _ _ _ (fun acc xx hxx => ?_)
  rw [List.mem_range] at hxx
  refine foldl_congr_mem _ _ _ _ (fun acc2 b hb => ?_)
  rw [cachedPixelPacked_eq f n m srcRow b xx hxx]

set_option maxHeartbeats 1000000 in
theorem stretchCoreCached_eq (f : filter) (imOut imIn : Imaging) :
    stretchCoreCached f imOut imIn = stretchCore f imOut imIn := by
  rcases imIn with ⟨mo, xs, ys, data⟩
  cases data with
  | image8 srcRows =>
    simp only [stretchCoreCached, stretchCore]
    congr 3
    refine List.map_congr_left (fun yy hyy => ?_)
    refine List.map_congr_left (fun xx hxx => ?_)
    rw [List.mem_range] at hxx
    exact cachedPixel8_eq f xs imOut.xsize _ xx hxx
  | packedUINT8 bands srcRows =>
    simp only [stretchCoreCached, stretchCore]
    congr 3
    refine List.map_congr_left (fun yy hyy => ?_)
    exact cachedWritePackedRow_eq f xs imOut.xsize bands _ _
  | int32 srcRows =>
    simp only [stretchCoreCached, stretchCore]
    congr 3
    refine List.map_congr_left (fun yy hyy => ?_)
    refine List.map_congr_left (fun xx hxx => ?_)
    rw [List.mem_range] at hxx
    exact cachedPixelI_eq f xs imOut.xsize _ xx hxx
  | float32 srcRows =>
    simp only [stretchCoreCached, stretchCore]
    congr 3
    refine List.map_congr_left (fun yy hyy => ?_)
    refine List.map_congr_left (fun xx hxx => ?_)
    rw [List.mem_range] at hxx
    exact cachedPixelF_eq f xs imOut.xsize _ xx hxx
  | unsupportedType => rfl

/-- Claim C7: for every output position the planning pass
(Antialias.c:149-172) and the hot compute loop (Antialias.c:176-194)
agree on the window bounds, the stored reciprocal normalizer, and every
coefficient; consequently the caching implementation the spec describes
(`stretchCoreCached`, reusing the planning tables in the reduction)
produces a destination identical to the reference recomputation
(`stretchCore`) on every input image. -/
theorem claim_c7 (f : filter) (n m xx : ℕ) (imOut imIn : Imaging) :
    planBoundsEntry f n m xx
        = (xminOf f n m xx, xmaxOf f n m xx, normOf f n m xx) ∧
      planCoeffs f n m xx = windowWeights f n m xx ∧
      stretchCoreCached f imOut imIn = stretchCore f imOut imIn :=
  ⟨planBoundsEntry_eq f n m xx, planCoeffs_eq f n m xx,
    stretchCoreCached_eq f imOut imIn⟩

/-! ## C8: resize rejects palette and 1-bit modes outright -/

/-- Claim C8: for every behavior of the external collaborators
(allocation and transpose), every destination, every filter tag and
every antialias model, `ImagingStretch` on a source of mode "P"
(palette) or "1" (1-bit) returns the mode error.  The conclusion holds
for all collaborator functions, so no allocation result or transpose
result is ever consulted, and no interpolation (stretch pass) is
attempted: the rejection happens before any of them. -/
theorem claim_c8 (co : Collaborators) (aa : filter) (imOut imIn : Imaging)
    (tag : TransformFilter) (h : imIn.mode = "P" ∨ imIn.mode = "1") :
    ImagingStretch co aa imOut imIn tag = .error .modeError := by
  unfold ImagingStretch
  rw [if_pos h]

/-- Witness for C8: a palette-mode source is rejected even with
collaborators that always fail. -/
theorem claim_c8_witness :
    ImagingStretch ⟨fun _ _ _ => none, fun _ _ => none⟩ NEAREST
        ⟨"L", 1, 1, .image8 [[0]]⟩ ⟨"P", 2, 2, .image8 [[1, 2], [3, 4]]⟩
        .bilinear
      = .error .modeError :=
  claim_c8 ⟨fun _ _ _ => none, fun _ _ => none⟩ NEAREST
    ⟨"L", 1, 1, .image8 [[0]]⟩ ⟨"P", 2, 2, .image8 [[1, 2], [3, 4]]⟩
    .bilinear (.inl rfl)

/-! ## C9: the 2-band packed path touches only lanes 0 and 3 -/

theorem getD_map_range {α : Type} (g : ℕ → α) (Y i : ℕ) (d : α)
    (h : i < Y) : ((List.range Y).map g).getD i d = g i := by
  rw [List.getD_eq_getElem?_getD, List.getElem?_map, List.getElem?_range h]
  rfl

theorem foldl_preserves_getD {β : Type} (l : List β)
    (step : List ℕ → β → List ℕ) (base : List ℕ) (idx : ℕ)
    (h : ∀ acc x, x ∈ l → (step acc x).getD idx 0 = acc.getD idx 0) :
    (l.foldl step base).getD idx 0 = base.getD idx 0 := by
  induction l generalizing base with
  | nil => rfl
  | cons b t ih =>
    rw [List.foldl_cons,
      ih _ (fun acc x hx => h acc x (List.mem_cons_of_mem b hx))]
    exact h base b (List.mem_cons_self b t)

theorem lanesOf_two : lanesOf 2 = [0, 3] := rfl

theorem writePackedRow_preserves (f : filter) (n m : ℕ)
    (srcRow destRow : List ℕ) (idx : ℕ)
    (hidx : idx % 4 = 1 ∨ idx % 4 = 2) :
    (writePackedRow f n m 2 srcRow destRow).getD idx 0
      = destRow.getD idx 0 := by
  unfold writePackedRow
  refine foldl_preserves_getD _ _ _ _ (fun acc xx hxx => ?_)
  rw [lanesOf_two]
  show ((acc.set (xx * 4 + 0) (pixelPacked f n m srcRow 0 xx)).set
      (xx * 4 + 3) (pixelPacked f n m srcRow 3 xx)).getD idx 0
    = acc.getD idx 0
  rw [List.getD_eq_getElem?_getD, List.getElem?_set_ne (by omega),
    List.getElem?_set_ne (by omega), ← List.getD_eq_getElem?_getD]

/-- The packed destination plane produced by the 2-band path: row `yy`
is the destination row updated at lanes 0 and 3 of every pixel. -/
def laStretchRows (f : filter) (imOut imIn : Imaging)
    (srcRows destRows : List (List ℕ)) : List (List ℕ) :=
  (List.range imOut.ysize).map fun yy =>
    writePackedRow f imIn.xsize imOut.xsize 2 (srcRows.getD yy [])
      (destRows.getD yy [])

/-- Claim C9: on a 2-band (LA) packed 8-bit image pair the stretch only
writes packed lanes 0 and 3 — the bytes at lane offsets 1 and 2 of every
destination pixel row keep the destination's previous contents — and it
only reads lanes 0 and 3 of the source: two sources agreeing on lanes
0 and 3 produce identical packed output rows. -/
theorem claim_c9 (f : filter) (imOut imIn : Imaging)
    (srcRows destRows : List (List ℕ))
    (hin : imIn.data = .packedUINT8 2 srcRows)
    (hout : imOut.data = .packedUINT8 2 destRows) :
    (stretchCore f imOut imIn = .ok { imOut with
        data := .packedUINT8 2 (laStretchRows f imOut imIn srcRows destRows) } ∧
      ∀ yy, yy < imOut.ysize → ∀ idx, idx % 4 = 1 ∨ idx % 4 = 2 →
        ((laStretchRows f imOut imIn srcRows destRows).getD yy []).getD idx 0
          = (destRows.getD yy []).getD idx 0) ∧
    (∀ srcRow srcRow' destRow : List ℕ,
      (∀ i, i % 4 = 0 ∨ i % 4 = 3 → srcRow.getD i 0 = srcRow'.getD i 0) →
      writePackedRow f imIn.xsize imOut.xsize 2 srcRow destRow
        = writePackedRow f imIn.xsize imOut.xsize 2 srcRow' destRow) := by
  refine ⟨⟨?_, ?_⟩, ?_⟩
  · simp only [stretchCore, hin, hout, packedRowsOf, laStretchRows]
  · intro yy hyy idx hidx
    unfold laStretchRows
    rw [getD_map_range _ _ _ _ hyy]
    exact writePackedRow_preserves f imIn.xsize imOut.xsize _ _ idx hidx
  · intro srcRow srcRow' destRow hsrc
    unfold writePackedRow
    refine foldl_congr_mem _ _ _ _ (fun acc xx hxx => ?_)
    refine foldl_congr_mem _ _ _ _ (fun acc2 b hb => ?_)
    have hb' : b = 0 ∨ b = 3 := by
      rw [lanesOf_two] at hb
      simpa using hb
    have hpix : pixelPacked f imIn.xsize imOut.xsize srcRow b xx
        = pixelPacked f imIn.xsize imOut.xsize srcRow' b xx := by
      have hws : weightedSumPacked f imIn.xsize imOut.xsize srcRow b xx
          = weightedSumPacked f imIn.xsize imOut.xsize srcRow' b xx := by
        unfold weightedSumPacked
        refine Finset.sum_congr rfl (fun x hx => ?_)
        rw [hsrc (x.toNat * 4 + b) (by rcases hb' with h | h <;> omega)]
      unfold pixelPacked
      rw [hws]
    rw [hpix]

/-- Witness for C9 on a 1×1 LA image: destination bytes at lanes 1 and 2
survive, and the source bytes at lanes 1 and 2 are never read. -/
theorem claim_c9_witness :
    (stretchCore NEAREST ⟨"LA", 1, 1, .packedUINT8 2 [[0, 111, 112, 0]]⟩
        ⟨"LA", 1, 1, .packedUINT8 2 [[10, 99, 98, 20]]⟩
        = .ok ⟨"LA", 1, 1, .packedUINT8 2 (laStretchRows NEAREST
          ⟨"LA", 1, 1, .packedUINT8 2 [[0, 111, 112, 0]]⟩
          ⟨"LA", 1, 1, .packedUINT8 2 [[10, 99, 98, 20]]⟩
          [[10, 99, 98, 20]] [[0, 111, 112, 0]])⟩ ∧
      ∀ yy, yy < 1 → ∀ idx, idx % 4 = 1 ∨ idx % 4 = 2 →
        ((laStretchRows NEAREST
          ⟨"LA", 1, 1, .packedUINT8 2 [[0, 111, 112, 0]]⟩
          ⟨"LA", 1, 1, .packedUINT8 2 [[10, 99, 98, 20]]⟩
          [[10, 99, 98, 20]] [[0, 111, 112, 0]]).getD yy []).getD idx 0
          = ([[0, 111, 112, 0]].getD yy []).getD idx 0) ∧
    (∀ srcRow srcRow' destRow : List ℕ,
      (∀ i, i % 4 = 0 ∨ i % 4 = 3 → srcRow.getD i 0 = srcRow'.getD i 0) →
      writePackedRow NEAREST 1 1 2 srcRow destRow
        = writePackedRow NEAREST 1 1 2 srcRow' destRow) :=
  claim_c9 NEAREST ⟨"LA", 1, 1, .packedUINT8 2 [[0, 111, 112, 0]]⟩
    ⟨"LA", 1, 1, .packedUINT8 2 [[10, 99, 98, 20]]⟩
    [[10, 99, 98, 20]] [[0, 111, 112, 0]] rfl rfl

/-! ## C10: unsupported formats fail atomically in the reduction -/

/-- Claim C10: matching modes, supported filter tag, equal heights,
destination width at least 1, but a pixel layout that is none of the
supported ones (no 8-bit plane and type not UINT8/INT32/FLOAT32): the
stretch returns the mode error of the switch's `default:` branch.  The
error is raised at the first destination column before any pixel store,
so the destination buffer is untouched — in the embedding no output
image is produced at all. -/
theorem claim_c10 (aa : filter) (imOut imIn : Imaging)
    (tag : TransformFilter) (hmode : imIn.mode = imOut.mode)
    (hy : imOut.ysize = imIn.ysize) (htag : tag ≠ .unknown)
    (hdata : imIn.data = .unsupportedType) (hx : 1 ≤ imOut.xsize) :
    ImagingStretchHorizaontal aa imOut imIn tag = .error .modeError := by
  have hcore : ∀ g : filter, stretchCore g imOut imIn
      = .error .modeError := by
    intro g
    simp only [stretchCore, hdata]
    rw [if_neg (by omega)]
  unfold ImagingStretchHorizaontal
  rw [if_neg (by simp [hmode]), if_neg (by simp [hy])]
  cases tag with
  | nearest => exact hcore NEAREST
  | antialias => exact hcore aa
  | bilinear => exact hcore BILINEAR
  | bicubic => exact hcore BICUBIC
  | unknown => exact absurd rfl htag

/-- Witness for C10 on a 2×1 image of an unsupported layout. -/
theorem claim_c10_witness :
    ImagingStretchHorizaontal NEAREST ⟨"I;16", 2, 1, .unsupportedType⟩
        ⟨"I;16", 2, 1, .unsupportedType⟩ .bicubic
      = .error .modeError :=
  claim_c10 NEAREST ⟨"I;16", 2, 1, .unsupportedType⟩
    ⟨"I;16", 2, 1, .unsupportedType⟩ .bicubic rfl rfl
    (by decide) rfl (by decide)

end Antialias
